import Mathlib

/-!
Verification of the nexus-uploader repository (shallow embedding).

The definitions below are translated from src/nexus_uploader.py (the variant
with the version-limit selector; src/nexus-uploader.py is an older variant of
the same logic).  External collaborators are modelled as explicit inputs:

* the local filesystem walk is modelled by a list of PomScan values, one per
  discovered descriptor file, carrying the relative-path segments, the results
  of the jar / classifier is_file probes, and the descriptor's mtime;
* the remote HTTP server is modelled by a status oracle String -> Nat giving
  the HTTP status code of a HEAD request for each url;
* Python's heapq library (external to the repository) is modelled through its
  contract: the heap is kept as a list sorted by ascending mtime, so that
  index 0 is a least element, heappush inserts, and heapreplace evicts the
  least element and inserts.  The repository compares MavenInfo values only
  by mtime (MavenInfo.__lt__), so for the properties proved here this model
  is an exact refinement of any binary-heap implementation of that contract;
* Python exceptions (IndexError from rpath_parts[-3] on a short path, and
  from minheap[0] on an empty heap) are modelled by Option: none means the
  corresponding Python code raises.
-/

/-- MavenInfo from nexus_uploader.py: one discovered artifact version.
The path field of the Python class (a filesystem handle used only to open
files for the multipart body) is omitted; every other field is kept. -/
structure MavenInfo where
  pom : String
  artifact_id : String
  group_id : String
  version : String
  jar : Option String
  classifiers : List (String × List String)
  mtime : Int
deriving DecidableEq, Repr

/-- Result of scanning one descriptor file: the relative path of the .pom
split on the path separator (Python: filter(bool, str(pom.relative_to(m2_path)).split(sep)),
so every segment is nonempty), together with the outcomes of the filesystem
probes for the jar and the classifier files, and the descriptor's mtime. -/
structure PomScan where
  rpathParts : List String
  jar : Option String
  classifiers : List (String × List String)
  mtime : Int
deriving DecidableEq, Repr

/-- Python str.join with separator a dot, as used for group_id. -/
def joinDots : List String → String
  | [] => ""
  | [s] => s
  | s :: rest => s ++ "." ++ joinDots rest

/-- Body of the m2_maven_info loop for one discovered descriptor
(nexus_uploader.py lines 98-124).  rpath_parts[-3] (and rpath_parts[-2])
raise IndexError when the relative path has fewer than three segments;
this is the none case.  Otherwise group_id is the dot-join of all segments
before the last three, artifact_id the third-to-last and version the
second-to-last segment, and pom the descriptor's own filename. -/
def m2_maven_info_one (p : PomScan) : Option MavenInfo :=
  let parts := p.rpathParts
  if 3 ≤ parts.length then
    some {
      pom := parts.getLastD ""
      group_id := joinDots (parts.take (parts.length - 3))
      artifact_id := parts.getD (parts.length - 3) ""
      version := parts.getD (parts.length - 2) ""
      jar := p.jar
      classifiers := p.classifiers
      mtime := p.mtime }
  else none

/-- Configuration fields of BaseNexusUploader.  Compiled regex patterns are
modelled as Bool-valued search predicates (pattern.search(s) is truthy iff the
predicate holds); a missing pattern is none.  The classifiers set is kept as a
list fixing one iteration order. -/
structure BaseNexusUploader where
  repo_id : String
  include_artifact_pattern : Option (String → Bool)
  include_group_pattern : Option (String → Bool)
  include_version_pattern : Option (String → Bool)
  force_upload : Bool
  repo_url : String
  classifiers : List String
  limit : Nat

/-- Truthiness test of an optional compiled pattern applied to a field:
an absent pattern never rejects. -/
def patternOk (p : Option (String → Bool)) (s : String) : Bool :=
  match p with
  | none => true
  | some f => f s

/-- The three pattern guards of _filtered_maven_versions, in source order
(group, artifact, version); a record is rejected iff some supplied pattern
fails to match. -/
def passesFilters (u : BaseNexusUploader) (info : MavenInfo) : Bool :=
  patternOk u.include_group_pattern info.group_id &&
  patternOk u.include_artifact_pattern info.artifact_id &&
  patternOk u.include_version_pattern info.version

/-- Grouping key used by _filtered_maven_versions: the Python f-string
f of group_id, a colon, and artifact_id. -/
def artifactKey (info : MavenInfo) : String :=
  info.group_id ++ ":" ++ info.artifact_id

/-- Model of heapq.heappush for the mtime-ordered MavenInfo heap: insert into
the ascending-by-mtime sorted list (heapq contract: the heap's first element
is a least element and push adds one element). -/
def heappush : List MavenInfo → MavenInfo → List MavenInfo
  | [], item => [item]
  | top :: rest, item =>
    if item.mtime < top.mtime then item :: top :: rest
    else top :: heappush rest item

/-- Body of the _filtered_maven_versions loop for one record that passed the
pattern guards, acting on that record's per-key heap (lines 148-155).
Returns the new heap and whether total was incremented; none models the
IndexError raised by minheap[0] when the heap is empty but already full
(possible only when limit = 0).  When the heap is full, a record with mtime
below the heap minimum is discarded, otherwise heapq.heapreplace evicts the
minimum and inserts the record. -/
def stepGroup (limit : Nat) (minheap : List MavenInfo) (info : MavenInfo) :
    Option (List MavenInfo × Bool) :=
  if limit ≤ minheap.length then
    match minheap with
    | [] => none
    | top :: rest =>
      if info.mtime < top.mtime then some (top :: rest, false)
      else some (heappush rest info, false)
  else
    some (heappush minheap info, true)

/-- Read access artifact_versions[key] of the insertion-ordered defaultdict,
an empty heap when the key is absent. -/
def lookupGroup : List (String × List MavenInfo) → String → List MavenInfo
  | [], _ => []
  | (k, g) :: t, key => if k = key then g else lookupGroup t key

/-- Write-back of a mutated per-key heap into the insertion-ordered dict:
replace the entry when the key is present, append it otherwise. -/
def updateGroup : List (String × List MavenInfo) → String → List MavenInfo →
    List (String × List MavenInfo)
  | [], key, g => [(key, g)]
  | (k, h) :: t, key, g =>
    if k = key then (key, g) :: t else (k, h) :: updateGroup t key g

/-- One iteration of the _filtered_maven_versions loop: apply the three
pattern guards, then update the record's per-key heap and the running total. -/
def filteredStep (u : BaseNexusUploader) (st : Nat × List (String × List MavenInfo))
    (info : MavenInfo) : Option (Nat × List (String × List MavenInfo)) :=
  if passesFilters u info then
    match stepGroup u.limit (lookupGroup st.2 (artifactKey info)) info with
    | none => none
    | some (h, inc) =>
      some (st.1 + (if inc then 1 else 0), updateGroup st.2 (artifactKey info) h)
  else some st

/-- The _filtered_maven_versions loop over the remaining records, from a given
state (running total, dict of per-key heaps). -/
def filteredFold (u : BaseNexusUploader) :
    Nat × List (String × List MavenInfo) → List MavenInfo →
    Option (Nat × List (String × List MavenInfo))
  | st, [] => some st
  | st, info :: rest =>
    match filteredStep u st info with
    | none => none
    | some st' => filteredFold u st' rest

/-- BaseNexusUploader._filtered_maven_versions: fold the filter/selector over
the scanned records, starting from total 0 and an empty dict. -/
def filtered_maven_versions (u : BaseNexusUploader) (infos : List MavenInfo) :
    Option (Nat × List (String × List MavenInfo)) :=
  filteredFold u (0, []) infos

/-- Nexus3Uploader._artifact_exists: build the HEAD url and interpret the
status code returned by the remote (the statusOf oracle): 404 means absent,
200 means present, and any other status is conservatively treated as present.
The function is total: no status makes it raise. -/
def artifact_exists (statusOf : String → Nat) (u : BaseNexusUploader)
    (artifactPath : String) : Bool :=
  let url := u.repo_url ++ "/repository/" ++ u.repo_id ++ "/" ++ artifactPath
  let status := statusOf url
  if status = 404 then false
  else if status = 200 then true
  else true

/-- Python str.replace of the one-character pattern dot by slash, as used to
turn a groupId into a group path: every dot character becomes a slash. -/
def replaceDots (s : String) : String :=
  String.mk (s.data.map (fun ch => if ch = '.' then '/' else ch))

/-- Nexus3Uploader.artifact_path: groupId with dots replaced by slashes,
then artifactId, version and the filename, joined with slashes. -/
def artifact_path (minfo : MavenInfo) (filename : String) : String :=
  let m2_path := replaceDots minfo.group_id ++ "/" ++ minfo.artifact_id
    ++ "/" ++ minfo.version
  m2_path ++ "/" ++ filename

/-- The need_upload closure of _upload_single: forced uploads skip the
existence check, otherwise a file is needed iff it is absent remotely. -/
def need_upload (statusOf : String → Nat) (u : BaseNexusUploader)
    (minfo : MavenInfo) (filename : String) : Bool :=
  u.force_upload || !(artifact_exists statusOf u (artifact_path minfo filename))

/-- The encode_file closure of _upload_single: the multipart field name for
asset number num paired with the file's basename (the open file handle is
not modelled). -/
def encode_file (basename : String) (num : Nat) : String × String :=
  ("maven2.asset" ++ toString num, basename)

/-- Python filename.split at dots, last element: the text after the last dot
of the filename (the whole filename when it has no dot), computed as the
longest dot-free suffix of the filename. -/
def lastSuffix (s : String) : String :=
  String.mk ((s.data.reverse.takeWhile (fun c => c ≠ '.')).reverse)

/-- Lookup maven_info.classifiers[classifier], empty when the classifier is
not present on the record. -/
def classifierFiles (info : MavenInfo) (c : String) : List String :=
  match info.classifiers.find? (fun kv => kv.1 = c) with
  | some kv => kv.2
  | none => []

/-- Mutable state of _upload_single: the files list, the form-field payload
(an insertion-ordered dict, all keys written at distinct asset numbers), and
the next asset number extension_num. -/
structure UploadState where
  files : List (String × String)
  payload : List (String × String)
  extension_num : Nat
deriving DecidableEq, Repr

/-- Body of the inner classifier loop of _upload_single for one classifier
file: when the file needs uploading it is appended with the current asset
number, its extension form field is the text after the file's own last dot,
its classifier form field is the classifier name, and extension_num advances;
otherwise nothing changes. -/
def upload_classifier_file (statusOf : String → Nat) (u : BaseNexusUploader)
    (minfo : MavenInfo) (classifier : String) (st : UploadState)
    (filename : String) : UploadState :=
  if need_upload statusOf u minfo filename then
    { files := st.files ++ [encode_file filename st.extension_num]
      payload := st.payload
        ++ [("maven2.asset" ++ toString st.extension_num ++ ".extension",
              lastSuffix filename),
            ("maven2.asset" ++ toString st.extension_num ++ ".classifier",
              classifier)]
      extension_num := st.extension_num + 1 }
  else st

/-- The classifier double loop of _upload_single (lines 232-241): for each
configured classifier, each of the record's files under that classifier is
considered in order. -/
def upload_classifiers (statusOf : String → Nat) (u : BaseNexusUploader)
    (minfo : MavenInfo) (st : UploadState) : UploadState :=
  u.classifiers.foldl
    (fun st1 c =>
      (classifierFiles minfo c).foldl
        (upload_classifier_file statusOf u minfo c) st1)
    st

/-- State of _upload_single after the descriptor lines (218-225): the pom is
staged as asset 1 with extension pom, generate-pom is false, and extension_num
starts at 2. -/
def uploadInitState (minfo : MavenInfo) : UploadState :=
  { files := [encode_file minfo.pom 1]
    payload := [("maven2.generate-pom", "false"),
                ("maven2.asset1.extension", "pom")]
    extension_num := 2 }

/-- State of _upload_single after the jar lines (227-230): when a jar is
present and needs uploading it is staged as asset 2 with extension jar and
extension_num advances to 3, otherwise the descriptor-only state is kept. -/
def uploadJarState (statusOf : String → Nat) (u : BaseNexusUploader)
    (minfo : MavenInfo) : UploadState :=
  match minfo.jar with
  | some jarname =>
    if need_upload statusOf u minfo jarname then
      { files := (uploadInitState minfo).files ++ [encode_file jarname 2]
        payload := (uploadInitState minfo).payload ++ [("maven2.asset2.extension", "jar")]
        extension_num := 3 }
    else uploadInitState minfo
  | none => uploadInitState minfo

/-- Nexus3Uploader._upload_single: stage the descriptor as asset 1 with
extension pom and generate-pom false, then the jar as asset 2 when present
and needed, then the classifier files; the returned state is what is posted
as one multipart submission. -/
def upload_single (statusOf : String → Nat) (u : BaseNexusUploader)
    (minfo : MavenInfo) : UploadState :=
  upload_classifiers statusOf u minfo (uploadJarState statusOf u minfo)

/-- BaseNexusUploader.upload: run the filter/selector, then iterate the dict
in insertion order and every retained record within its group in order,
performing one _upload_single submission per record; none when the selector
raises. -/
def upload_run (statusOf : String → Nat) (u : BaseNexusUploader)
    (infos : List MavenInfo) : Option (List UploadState) :=
  match filtered_maven_versions u infos with
  | none => none
  | some (_, artifact_versions) =>
    some (artifact_versions.foldl
      (fun acc kv =>
        kv.2.foldl (fun acc2 minfo => acc2 ++ [upload_single statusOf u minfo]) acc)
      [])

/-- Records of one artifact key that pass the three pattern guards, in
arrival order: the per-key input of the bounded selection. -/
def keyRecords (u : BaseNexusUploader) (key : String) (infos : List MavenInfo) :
    List MavenInfo :=
  infos.filter (fun i => passesFilters u i && decide (artifactKey i = key))

/-- Number of records in l whose modification time strictly exceeds that
of r: the rank of r from the top. -/
def cntAbove (l : List MavenInfo) (r : MavenInfo) : Nat :=
  l.countP (fun s => decide (r.mtime < s.mtime))

/-- The records of l of top-k recency: those with fewer than k records of l
strictly more recent.  When the modification times of l are pairwise distinct
these are exactly the min(length l, k) records with the greatest mtime. -/
def keep (k : Nat) (l : List MavenInfo) : List MavenInfo :=
  l.filter (fun r => decide (cntAbove l r < k))

/-- Pairwise-distinct modification times. -/
def distinctTimes (l : List MavenInfo) : Prop :=
  l.Pairwise (fun a b => a.mtime ≠ b.mtime)

instance distinctTimes_decidable (l : List MavenInfo) : Decidable (distinctTimes l) := by
  unfold distinctTimes
  infer_instance

/-- The primary asset as a zero-or-one element list. -/
def jarList (info : MavenInfo) : List String :=
  match info.jar with
  | some j => [j]
  | none => []

/-- Sum of the retained group sizes over all keys of the selector's dict. -/
def sumLens (avs : List (String × List MavenInfo)) : Nat :=
  (avs.map (fun kv => kv.2.length)).sum

/-- Per-key trace of the selector: the successive stepGroup actions that
_filtered_maven_versions applies to one artifact key's heap while folding
over that key's filtered records. -/
def groupFoldAux (limit : Nat) : List MavenInfo → List MavenInfo → Option (List MavenInfo)
  | h, [] => some h
  | h, info :: rest =>
    match stepGroup limit h info with
    | none => none
    | some (h2, _) => groupFoldAux limit h2 rest

/-- Sample record used by concrete witnesses: one version of the artifact
with key g:a. -/
def sampleRec (v : String) (mt : Int) : MavenInfo :=
  { pom := "a-" ++ v ++ ".pom", artifact_id := "a", group_id := "g", version := v,
    jar := none, classifiers := [], mtime := mt }

/-- Sample configuration used by concrete witnesses: no patterns, no force,
one configured classifier, and the given version limit. -/
def sampleUploader (lim : Nat) : BaseNexusUploader :=
  { repo_id := "libs", include_artifact_pattern := none, include_group_pattern := none,
    include_version_pattern := none, force_upload := false, repo_url := "http://h",
    classifiers := ["sources"], limit := lim }

/-- Sample record with classifier files, used by concrete witnesses. -/
def sampleInfoCls : MavenInfo :=
  { pom := "w-1.0.pom", artifact_id := "w", group_id := "g", version := "1.0",
    jar := none, classifiers := [("sources", ["w-1.0-sources.exe"])], mtime := 0 }

/-- Asset-numbering invariant of the _upload_single state: the multipart field
names of the staged files are maven2.asset1, maven2.asset2, ... in append
order with no gaps, and extension_num is the next free number. -/
def numInv (st : UploadState) : Prop :=
  st.files.map Prod.fst =
    (List.range' 1 st.files.length).map (fun n => "maven2.asset" ++ toString n)
  ∧ st.extension_num = st.files.length + 1

/-- Tagging invariant of the _upload_single state: every staged file is the
descriptor, the primary jar, or a file of a configured classifier whose
extension form field, keyed by the asset's own field name, is the text after
that file's own last dot, next to a classifier form field with its
classifier's name. -/
def classifierTagged (u : BaseNexusUploader) (minfo : MavenInfo)
    (st : UploadState) : Prop :=
  ∀ e ∈ st.files,
    e.2 = minfo.pom ∨ minfo.jar = some e.2 ∨
    ∃ c, c ∈ u.classifiers ∧ e.2 ∈ classifierFiles minfo c ∧
      (e.1 ++ ".extension", lastSuffix e.2) ∈ st.payload ∧
      (e.1 ++ ".classifier", c) ∈ st.payload

/-! Helper lemmas about the heap model and the selector state. -/

theorem heappush_length (h : List MavenInfo) (x : MavenInfo) :
    (heappush h x).length = h.length + 1 := by
  induction h with
  | nil => rfl
  | cons top rest ih =>
    unfold heappush
    split
    · rfl
    · simpa using ih

theorem heappush_perm (h : List MavenInfo) (x : MavenInfo) :
    (heappush h x).Perm (x :: h) := by
  induction h with
  | nil => rfl
  | cons top rest ih =>
    unfold heappush
    split
    · rfl
    · exact (ih.cons top).trans (List.Perm.swap x top rest)

theorem lookup_update_sum (avs : List (String × List MavenInfo)) (key : String)
    (g : List MavenInfo) :
    sumLens (updateGroup avs key g) + (lookupGroup avs key).length
      = sumLens avs + g.length := by
  induction avs with
  | nil => simp [updateGroup, lookupGroup, sumLens]
  | cons kv t ih =>
    obtain ⟨k, h⟩ := kv
    by_cases hk : k = key
    · simp [updateGroup, lookupGroup, hk, sumLens]
      omega
    · simp only [updateGroup, lookupGroup, hk, if_false, sumLens, List.map_cons,
        List.sum_cons]
      simp only [sumLens] at ih
      omega

theorem filteredStep_budget (u : BaseNexusUploader)
    (st st' : Nat × List (String × List MavenInfo)) (info : MavenInfo)
    (h : filteredStep u st info = some st') :
    st'.1 + sumLens st.2 = st.1 + sumLens st'.2 := by
  unfold filteredStep at h
  by_cases hp : passesFilters u info
  · simp only [hp, if_true] at h
    unfold stepGroup at h
    by_cases hfull : u.limit ≤ (lookupGroup st.2 (artifactKey info)).length
    · simp only [hfull, if_true] at h
      cases hheap : lookupGroup st.2 (artifactKey info) with
      | nil => rw [hheap] at h; simp at h
      | cons top rest =>
        rw [hheap] at h
        by_cases hlt : info.mtime < top.mtime
        · simp only [hlt, if_true] at h
          cases h
          have := lookup_update_sum st.2 (artifactKey info) (top :: rest)
          rw [hheap] at this
          have hz : (if (false : Bool) = true then (1 : Nat) else 0) = 0 := rfl
          simp only [hz]
          omega
        · simp only [hlt, if_false] at h
          cases h
          have := lookup_update_sum st.2 (artifactKey info) (heappush rest info)
          rw [hheap, heappush_length] at this
          simp only [List.length_cons] at this
          have hz : (if (false : Bool) = true then (1 : Nat) else 0) = 0 := rfl
          simp only [hz]
          omega
    · simp only [hfull, if_false] at h
      cases h
      have := lookup_update_sum st.2 (artifactKey info)
        (heappush (lookupGroup st.2 (artifactKey info)) info)
      rw [heappush_length] at this
      simp only [if_true]
      omega
  · simp only [hp, if_false] at h
    cases h
    omega

theorem filteredFold_budget (u : BaseNexusUploader) (infos : List MavenInfo) :
    ∀ st st', filteredFold u st infos = some st' →
      st'.1 + sumLens st.2 = st.1 + sumLens st'.2 := by
  induction infos with
  | nil =>
    intro st st' h
    unfold filteredFold at h
    cases h
    omega
  | cons info rest ih =>
    intro st st' h
    unfold filteredFold at h
    cases hstep : filteredStep u st info with
    | none => rw [hstep] at h; simp at h
    | some st1 =>
      rw [hstep] at h
      have h1 := filteredStep_budget u st st1 info hstep
      have h2 := ih st1 st' h
      omega

/-- C9: the total returned by the filter/selector equals the number of records
retained: for every input sequence, pattern configuration and positive limit,
the integer total of _filtered_maven_versions equals the sum over all artifact
keys of the length of that key's retained group. -/
theorem c9_total_eq_sum_groups (u : BaseNexusUploader) (infos : List MavenInfo)
    (t : Nat) (avs : List (String × List MavenInfo))
    (hlim : 1 ≤ u.limit)
    (h : filtered_maven_versions u infos = some (t, avs)) :
    t = sumLens avs := by
  have := filteredFold_budget u infos (0, []) (t, avs) h
  simp [sumLens] at this
  simpa [sumLens] using this

/-- Witness for c9_total_eq_sum_groups: a concrete run with limit 1 in which
two records of one key collapse to one retained record and the total is 1. -/
theorem c9_total_eq_sum_groups_witness :
    1 ≤ (1 : Nat) ∧
      (1 : Nat) = sumLens [("g:a",
        [{ pom := "a.pom", artifact_id := "a", group_id := "g", version := "2",
           jar := none, classifiers := [], mtime := 2 }])] := by
  refine ⟨by decide, ?_⟩
  exact c9_total_eq_sum_groups
    { repo_id := "r", include_artifact_pattern := none, include_group_pattern := none,
      include_version_pattern := none, force_upload := false, repo_url := "u",
      classifiers := [], limit := 1 }
    [{ pom := "a.pom", artifact_id := "a", group_id := "g", version := "1",
       jar := none, classifiers := [], mtime := 1 },
     { pom := "a.pom", artifact_id := "a", group_id := "g", version := "2",
       jar := none, classifiers := [], mtime := 2 }]
    1 _ (by decide) rfl

/-- C5: the remote existence check returns absent (false) exactly when the
HEAD response status for the checked url is 404; a 200 status and every other
status yield present (true), so an ambiguous status is conservatively treated
as existing; the check is a total function of the status (it never raises). -/
theorem c5_artifact_exists_iff_404 (statusOf : String → Nat)
    (u : BaseNexusUploader) (path : String) :
    artifact_exists statusOf u path = false ↔
      statusOf (u.repo_url ++ "/repository/" ++ u.repo_id ++ "/" ++ path) = 404 := by
  unfold artifact_exists
  by_cases h4 : statusOf (u.repo_url ++ "/repository/" ++ u.repo_id ++ "/" ++ path) = 404
  · simp [h4]
  · by_cases h2 : statusOf (u.repo_url ++ "/repository/" ++ u.repo_id ++ "/" ++ path) = 200 <;>
      simp [h4, h2]

/-- C2: coordinate derivation is a pure function of the descriptor's relative
path: for every path of the shape groupPath ++ [artifactId, version, descriptor]
the produced record has version equal to the second-to-last segment, artifactId
the third-to-last, and groupId the earlier segments joined with dots; in
particular com/acme/widget/1.0/widget-1.0.pom yields groupId com.acme,
artifactId widget and version 1.0. -/
theorem c2_coordinate_derivation :
    (∀ (gs : List String) (a v d : String) (jar : Option String)
        (cls : List (String × List String)) (mt : Int),
      m2_maven_info_one ⟨gs ++ [a, v, d], jar, cls, mt⟩ =
        some { pom := d, group_id := joinDots gs, artifact_id := a, version := v,
               jar := jar, classifiers := cls, mtime := mt })
    ∧ m2_maven_info_one ⟨["com", "acme", "widget", "1.0", "widget-1.0.pom"], none, [], 7⟩ =
        some { pom := "widget-1.0.pom", group_id := "com.acme", artifact_id := "widget",
               version := "1.0", jar := none, classifiers := [], mtime := 7 } := by
  constructor
  · intro gs a v d jar cls mt
    have hlen : (gs ++ [a, v, d]).length = gs.length + 3 := by simp
    unfold m2_maven_info_one
    simp only [hlen]
    rw [if_pos (by omega)]
    have h1 : (gs ++ [a, v, d]).getLastD "" = d := by
      simp [List.getLastD_eq_getLast?, List.getLast?_append]
    have h2 : gs.length + 3 - 3 = gs.length := by omega
    have h3 : (gs ++ [a, v, d]).take gs.length = gs := List.take_left gs [a, v, d]
    have h4 : (gs ++ [a, v, d]).getD gs.length "" = a := by
      rw [List.getD_append_right gs [a, v, d] "" gs.length (le_refl _)]
      simp
    have h5 : gs.length + 3 - 2 = gs.length + 1 := by omega
    have h6 : (gs ++ [a, v, d]).getD (gs.length + 1) "" = v := by
      rw [List.getD_append_right gs [a, v, d] "" _ (by omega)]
      have h7 : gs.length + 1 - gs.length = 1 := by omega
      rw [h7]
      rfl
    rw [h2, h5, h1, h3, h4, h6]
  · rfl

/-- Counterexample to C3: a descriptor sitting directly at the repository root
(one relative-path segment) does not yield a record at all: rpath_parts[-3]
raises IndexError, modelled by none, contradicting the claim that the
extractor still yields a record with empty groupId; moreover a descriptor at
exactly three segments, which is not at the repository root, yields a record
whose groupId is the empty string. -/
theorem c3_counterexample :
    m2_maven_info_one ⟨["widget-1.0.pom"], none, [], 0⟩ = none
    ∧ m2_maven_info_one ⟨["widget", "1.0", "widget-1.0.pom"], none, [], 0⟩ =
        some { pom := "widget-1.0.pom", group_id := "", artifact_id := "widget",
               version := "1.0", jar := none, classifiers := [], mtime := 0 } :=
  ⟨rfl, rfl⟩

/-- Nonempty dot-join: joining a nonempty list of nonempty segments never
gives the empty string. -/
theorem joinDots_ne_empty (l : List String) (h : ∀ s ∈ l, s ≠ "")
    (hne : l ≠ []) : joinDots l ≠ "" := by
  cases l with
  | nil => exact absurd rfl hne
  | cons s rest =>
    cases rest with
    | nil => exact h s (by simp)
    | cons s' t =>
      have hj : joinDots (s :: s' :: t) = s ++ "." ++ joinDots (s' :: t) := rfl
      rw [hj]
      intro he
      have hz : (s ++ "." ++ joinDots (s' :: t)).length = 0 := by
        rw [he]
        rfl
      rw [String.length_append, String.length_append] at hz
      have hdot : ("." : String).length = 1 := rfl
      omega

/-- C3 amended: a descriptor found at fewer than three relative-path segments
(including one directly at the repository root) yields no record: the
extractor raises IndexError there.  A descriptor at three or more segments
yields a record, and (for the nonempty segments produced by the scanner) its
groupId is the empty string exactly when the path has exactly three segments,
that is, one directory level below the repository root. -/
theorem c3_amended_behavior (p : PomScan) :
    (p.rpathParts.length < 3 → m2_maven_info_one p = none)
    ∧ (3 ≤ p.rpathParts.length →
        ∃ info, m2_maven_info_one p = some info ∧
          ((∀ s ∈ p.rpathParts, s ≠ "") →
            (info.group_id = "" ↔ p.rpathParts.length = 3))) := by
  constructor
  · intro hlt
    unfold m2_maven_info_one
    rw [if_neg (by omega)]
  · intro hge
    refine ⟨_, by unfold m2_maven_info_one; rw [if_pos hge], ?_⟩
    intro hne
    by_cases h3 : p.rpathParts.length = 3
    · have ht : p.rpathParts.length - 3 = 0 := by omega
      simp [ht, joinDots, h3]
    · have hne' : p.rpathParts.take (p.rpathParts.length - 3) ≠ [] := by
        intro h0
        have hl0 := congrArg List.length h0
        simp [List.length_take] at hl0
        omega
      have hjn : joinDots (p.rpathParts.take (p.rpathParts.length - 3)) ≠ "" :=
        joinDots_ne_empty _ (fun s hs => hne s (List.take_subset _ _ hs)) hne'
      exact ⟨fun hg => absurd hg hjn, fun hl => absurd hl h3⟩

/-- Witness for c3_amended_behavior: at one segment no record is produced,
and at exactly three segments a record with empty groupId is produced. -/
theorem c3_amended_behavior_witness :
    m2_maven_info_one ⟨["w.pom"], none, [], 0⟩ = none
    ∧ ∃ info, m2_maven_info_one ⟨["a", "1.0", "w.pom"], none, [], 0⟩ = some info
        ∧ info.group_id = "" := by
  constructor
  · exact (c3_amended_behavior ⟨["w.pom"], none, [], 0⟩).1 (by decide)
  · obtain ⟨info, hsome, hiff⟩ :=
      (c3_amended_behavior ⟨["a", "1.0", "w.pom"], none, [], 0⟩).2 (by decide)
    exact ⟨info, hsome, (hiff (by decide)).mpr (by decide)⟩

/-- Totality of one selector step for a positive limit: the heap is nonempty
whenever it is full, so minheap[0] cannot raise. -/
theorem stepGroup_total (limit : Nat) (hl : 1 ≤ limit)
    (h : List MavenInfo) (i : MavenInfo) : ∃ r, stepGroup limit h i = some r := by
  unfold stepGroup
  by_cases hfull : limit ≤ h.length
  · cases h with
    | nil =>
      simp only [List.length_nil] at hfull
      exact ((by omega : False)).elim
    | cons top rest =>
      rw [if_pos hfull]
      show ∃ r, (if i.mtime < top.mtime then some (top :: rest, false)
          else some (heappush rest i, false)) = some r
      by_cases hlt : i.mtime < top.mtime
      · exact ⟨(top :: rest, false), by rw [if_pos hlt]⟩
      · exact ⟨(heappush rest i, false), by rw [if_neg hlt]⟩
  · rw [if_neg hfull]
    exact ⟨(heappush h i, true), rfl⟩

/-- Totality of the selector fold for a positive limit. -/
theorem filteredFold_total (u : BaseNexusUploader) (hl : 1 ≤ u.limit) :
    ∀ (infos : List MavenInfo) (st : Nat × List (String × List MavenInfo)),
      ∃ st', filteredFold u st infos = some st' := by
  intro infos
  induction infos with
  | nil => exact fun st => ⟨st, rfl⟩
  | cons info rest ih =>
    intro st
    unfold filteredFold filteredStep
    by_cases hp : passesFilters u info
    · obtain ⟨⟨h2, inc⟩, hr⟩ :=
        stepGroup_total u.limit hl (lookupGroup st.2 (artifactKey info)) info
      simp only [hp, if_true, hr]
      exact ih _
    · simp only [hp, if_false]
      exact ih st

/-- With limit zero, the state stays at an empty dict until the first record
passing the pattern guards, and that record makes minheap[0] raise on the
empty heap the full branch just selected. -/
theorem filteredFold_zero_none (u : BaseNexusUploader) (hl : u.limit = 0) :
    ∀ (infos : List MavenInfo) (t : Nat),
      (∃ i ∈ infos, passesFilters u i = true) →
      filteredFold u (t, []) infos = none := by
  intro infos
  induction infos with
  | nil =>
    intro t h
    simp at h
  | cons info rest ih =>
    intro t h
    by_cases hp : passesFilters u info
    · have hstep : filteredStep u (t, []) info = none := by
        unfold filteredStep
        simp [hp, stepGroup, lookupGroup, hl]
      unfold filteredFold
      rw [hstep]
    · have hstep : filteredStep u (t, []) info = some (t, []) := by
        unfold filteredStep
        simp [hp]
      unfold filteredFold
      rw [hstep]
      apply ih
      obtain ⟨i, hi, hpass⟩ := h
      rcases List.mem_cons.mp hi with h0 | h0
      · rw [h0] at hpass
        exact absurd hpass hp
      · exact ⟨i, h0, hpass⟩

/-- C10: the filter/selector is total only for positive limits: when limit is
zero and at least one record passes all three pattern guards, the selection
evaluates minheap[0] on an empty per-key heap and fails (returns none) instead
of returning empty groups, while for every limit of at least one no empty-heap
access occurs and the selection returns a result. -/
theorem c10_limit_zero_crashes (u : BaseNexusUploader) (infos : List MavenInfo) :
    (u.limit = 0 → (∃ i ∈ infos, passesFilters u i = true) →
      filtered_maven_versions u infos = none)
    ∧ (1 ≤ u.limit → ∃ r, filtered_maven_versions u infos = some r) := by
  constructor
  · intro hl hex
    exact filteredFold_zero_none u hl infos 0 hex
  · intro hl
    exact filteredFold_total u hl infos (0, [])

/-- Witness for c10_limit_zero_crashes: with limit zero one passing record
makes the selection fail, and with limit one it succeeds. -/
theorem c10_limit_zero_crashes_witness :
    filtered_maven_versions (sampleUploader 0) [sampleRec "1" 1] = none
    ∧ ∃ r, filtered_maven_versions (sampleUploader 1) [sampleRec "1" 1] = some r := by
  constructor
  · exact (c10_limit_zero_crashes (sampleUploader 0) [sampleRec "1" 1]).1 rfl
      ⟨sampleRec "1" 1, by simp, by decide⟩
  · exact (c10_limit_zero_crashes (sampleUploader 1) [sampleRec "1" 1]).2 (by decide)

/-! Lemmas about the _upload_single state machine. -/

theorem range'_one_concat (n : Nat) :
    List.range' 1 (n + 1) = List.range' 1 n ++ [n + 1] := by
  rw [List.range'_concat]
  simp [Nat.add_comm]

theorem numInv_classifier_file (statusOf : String → Nat) (u : BaseNexusUploader)
    (minfo : MavenInfo) (c : String) (st : UploadState) (f : String)
    (h : numInv st) : numInv (upload_classifier_file statusOf u minfo c st f) := by
  unfold upload_classifier_file
  split
  · obtain ⟨h1, h2⟩ := h
    constructor
    · show (st.files ++ [encode_file f st.extension_num]).map Prod.fst = _
      have hl : (st.files ++ [encode_file f st.extension_num]).length
          = st.files.length + 1 := by simp
      rw [List.map_append, hl, range'_one_concat, List.map_append, h1, h2]
      rfl
    · show st.extension_num + 1 = (st.files ++ [encode_file f st.extension_num]).length + 1
      rw [h2]
      simp
  · exact h

theorem numInv_foldl_files (statusOf : String → Nat) (u : BaseNexusUploader)
    (minfo : MavenInfo) (c : String) :
    ∀ (fs : List String) (st : UploadState), numInv st →
      numInv (fs.foldl (upload_classifier_file statusOf u minfo c) st) := by
  intro fs
  induction fs with
  | nil => exact fun st h => h
  | cons f rest ih =>
    intro st h
    exact ih _ (numInv_classifier_file statusOf u minfo c st f h)

theorem numInv_foldl_classifiers (statusOf : String → Nat) (u : BaseNexusUploader)
    (minfo : MavenInfo) :
    ∀ (cs : List String) (st : UploadState), numInv st →
      numInv (cs.foldl (fun st1 c => (classifierFiles minfo c).foldl
        (upload_classifier_file statusOf u minfo c) st1) st) := by
  intro cs
  induction cs with
  | nil => exact fun st h => h
  | cons c rest ih =>
    intro st h
    exact ih _ (numInv_foldl_files statusOf u minfo c _ st h)

theorem numInv_uploadJarState (statusOf : String → Nat) (u : BaseNexusUploader)
    (minfo : MavenInfo) : numInv (uploadJarState statusOf u minfo) := by
  have h0 : numInv (uploadInitState minfo) := ⟨rfl, rfl⟩
  unfold uploadJarState
  cases minfo.jar with
  | none => exact h0
  | some jarname =>
    show numInv (if need_upload statusOf u minfo jarname = true then
        { files := (uploadInitState minfo).files ++ [encode_file jarname 2]
          payload := (uploadInitState minfo).payload
            ++ [("maven2.asset2.extension", "jar")]
          extension_num := 3 }
      else uploadInitState minfo)
    by_cases hn : need_upload statusOf u minfo jarname = true
    · rw [if_pos hn]
      exact ⟨rfl, rfl⟩
    · rw [if_neg hn]
      exact h0

/-- C6: in every submission the staged assets are numbered contiguously from
1 in append order (the sequence of multipart field names is maven2.asset1,
maven2.asset2, ...), so a skipped asset consumes no number; in particular a
record with descriptor, needed jar and one needed classifier file stages
exactly assets 1, 2, 3 with the extension and classifier form fields keyed
by each asset's own number. -/
theorem c6_asset_numbering :
    (∀ (statusOf : String → Nat) (u : BaseNexusUploader) (minfo : MavenInfo),
      (upload_single statusOf u minfo).files.map Prod.fst =
        (List.range' 1 (upload_single statusOf u minfo).files.length).map
          (fun n => "maven2.asset" ++ toString n))
    ∧ upload_single (fun _ => 404) (sampleUploader 2)
        { pom := "w-1.0.pom", artifact_id := "w", group_id := "g", version := "1.0",
          jar := some "w-1.0.jar",
          classifiers := [("sources", ["w-1.0-sources.jar"])], mtime := 0 } =
      { files := [("maven2.asset1", "w-1.0.pom"), ("maven2.asset2", "w-1.0.jar"),
                  ("maven2.asset3", "w-1.0-sources.jar")],
        payload := [("maven2.generate-pom", "false"),
                    ("maven2.asset1.extension", "pom"),
                    ("maven2.asset2.extension", "jar"),
                    ("maven2.asset3.extension", "jar"),
                    ("maven2.asset3.classifier", "sources")],
        extension_num := 4 } := by
  constructor
  · intro statusOf u minfo
    exact (numInv_foldl_classifiers statusOf u minfo u.classifiers _
      (numInv_uploadJarState statusOf u minfo)).1
  · decide

/-! Lemmas for the forced-upload behaviour. -/

theorem need_upload_force (statusOf : String → Nat) (u : BaseNexusUploader)
    (minfo : MavenInfo) (f : String) (hf : u.force_upload = true) :
    need_upload statusOf u minfo f = true := by
  unfold need_upload
  rw [hf]
  rfl

theorem upload_classifier_file_force (statusOf : String → Nat)
    (u : BaseNexusUploader) (minfo : MavenInfo) (c : String) (st : UploadState)
    (f : String) (hf : u.force_upload = true) :
    upload_classifier_file statusOf u minfo c st f =
      { files := st.files ++ [encode_file f st.extension_num]
        payload := st.payload
          ++ [("maven2.asset" ++ toString st.extension_num ++ ".extension",
                lastSuffix f),
              ("maven2.asset" ++ toString st.extension_num ++ ".classifier", c)]
        extension_num := st.extension_num + 1 } := by
  unfold upload_classifier_file
  rw [need_upload_force statusOf u minfo f hf]
  rfl

theorem foldl_files_force_eq (s1 s2 : String → Nat) (u : BaseNexusUploader)
    (minfo : MavenInfo) (c : String) (hf : u.force_upload = true) :
    ∀ (fs : List String) (st : UploadState),
      fs.foldl (upload_classifier_file s1 u minfo c) st =
      fs.foldl (upload_classifier_file s2 u minfo c) st := by
  intro fs
  induction fs with
  | nil => exact fun st => rfl
  | cons f rest ih =>
    intro st
    show rest.foldl _ (upload_classifier_file s1 u minfo c st f) = _
    rw [upload_classifier_file_force s1 u minfo c st f hf,
      ← upload_classifier_file_force s2 u minfo c st f hf]
    exact ih _

theorem upload_classifiers_force_eq (s1 s2 : String → Nat)
    (u : BaseNexusUploader) (minfo : MavenInfo) (hf : u.force_upload = true) :
    ∀ (cs : List String) (st : UploadState),
      cs.foldl (fun st1 c => (classifierFiles minfo c).foldl
        (upload_classifier_file s1 u minfo c) st1) st =
      cs.foldl (fun st1 c => (classifierFiles minfo c).foldl
        (upload_classifier_file s2 u minfo c) st1) st := by
  intro cs
  induction cs with
  | nil => exact fun st => rfl
  | cons c rest ih =>
    intro st
    show rest.foldl _ ((classifierFiles minfo c).foldl
      (upload_classifier_file s1 u minfo c) st) = _
    rw [foldl_files_force_eq s1 s2 u minfo c hf]
    exact ih _

theorem foldl_files_force_snd (statusOf : String → Nat) (u : BaseNexusUploader)
    (minfo : MavenInfo) (c : String) (hf : u.force_upload = true) :
    ∀ (fs : List String) (st : UploadState),
      (fs.foldl (upload_classifier_file statusOf u minfo c) st).files.map Prod.snd =
        st.files.map Prod.snd ++ fs := by
  intro fs
  induction fs with
  | nil => intro st; simp
  | cons f rest ih =>
    intro st
    show (rest.foldl _ (upload_classifier_file statusOf u minfo c st f)).files.map Prod.snd = _
    rw [upload_classifier_file_force statusOf u minfo c st f hf, ih]
    simp [encode_file]

theorem upload_classifiers_force_snd (statusOf : String → Nat)
    (u : BaseNexusUploader) (minfo : MavenInfo) (hf : u.force_upload = true) :
    ∀ (cs : List String) (st : UploadState),
      ((cs.foldl (fun st1 c => (classifierFiles minfo c).foldl
          (upload_classifier_file statusOf u minfo c) st1) st).files.map Prod.snd) =
        st.files.map Prod.snd ++ cs.flatMap (classifierFiles minfo) := by
  intro cs
  induction cs with
  | nil => intro st; simp
  | cons c rest ih =>
    intro st
    show ((rest.foldl _ ((classifierFiles minfo c).foldl
      (upload_classifier_file statusOf u minfo c) st)).files.map Prod.snd) = _
    rw [ih, foldl_files_force_snd statusOf u minfo c hf]
    simp

theorem uploadJarState_force_eq (s1 s2 : String → Nat) (u : BaseNexusUploader)
    (minfo : MavenInfo) (hf : u.force_upload = true) :
    uploadJarState s1 u minfo = uploadJarState s2 u minfo := by
  unfold uploadJarState
  cases hj : minfo.jar with
  | none => rfl
  | some jarname =>
    show (if need_upload s1 u minfo jarname = true then
        { files := (uploadInitState minfo).files ++ [encode_file jarname 2]
          payload := (uploadInitState minfo).payload
            ++ [("maven2.asset2.extension", "jar")]
          extension_num := 3 }
      else uploadInitState minfo)
      = (if need_upload s2 u minfo jarname = true then
        { files := (uploadInitState minfo).files ++ [encode_file jarname 2]
          payload := (uploadInitState minfo).payload
            ++ [("maven2.asset2.extension", "jar")]
          extension_num := 3 }
      else uploadInitState minfo)
    rw [need_upload_force s1 u minfo jarname hf, need_upload_force s2 u minfo jarname hf]

theorem uploadJarState_force_snd (statusOf : String → Nat) (u : BaseNexusUploader)
    (minfo : MavenInfo) (hf : u.force_upload = true) :
    (uploadJarState statusOf u minfo).files.map Prod.snd =
      minfo.pom :: jarList minfo := by
  unfold uploadJarState jarList
  cases hj : minfo.jar with
  | none => rfl
  | some jarname =>
    show ((if need_upload statusOf u minfo jarname = true then
        { files := (uploadInitState minfo).files ++ [encode_file jarname 2]
          payload := (uploadInitState minfo).payload
            ++ [("maven2.asset2.extension", "jar")]
          extension_num := 3 }
      else uploadInitState minfo) : UploadState).files.map Prod.snd
      = minfo.pom :: [jarname]
    rw [need_upload_force statusOf u minfo jarname hf]
    rfl

/-- C4: with forceUpload set, the submission staged by _upload_single is
identical under any two behaviours of the remote existence check (no check
influences the outcome), and the staged files are exactly the descriptor,
the primary jar when present, and every discovered classifier file. -/
theorem c4_force_upload_oracle_independent (s1 s2 : String → Nat)
    (u : BaseNexusUploader) (minfo : MavenInfo) (hf : u.force_upload = true) :
    upload_single s1 u minfo = upload_single s2 u minfo
    ∧ (upload_single s1 u minfo).files.map Prod.snd =
        minfo.pom :: (jarList minfo ++ u.classifiers.flatMap (classifierFiles minfo)) := by
  constructor
  · unfold upload_single upload_classifiers
    rw [uploadJarState_force_eq s1 s2 u minfo hf]
    exact upload_classifiers_force_eq s1 s2 u minfo hf u.classifiers _
  · unfold upload_single upload_classifiers
    rw [upload_classifiers_force_snd s1 u minfo hf u.classifiers _,
      uploadJarState_force_snd s1 u minfo hf]
    rfl

/-- Witness for c4_force_upload_oracle_independent: with force set, an
all-present oracle (200) and an all-absent oracle (404) produce the same
submission, which stages the descriptor, the jar and the classifier file. -/
theorem c4_force_upload_oracle_independent_witness :
    upload_single (fun _ => 200) { sampleUploader 2 with force_upload := true }
        { sampleInfoCls with jar := some "w-1.0.jar" }
      = upload_single (fun _ => 404) { sampleUploader 2 with force_upload := true }
        { sampleInfoCls with jar := some "w-1.0.jar" }
    ∧ (upload_single (fun _ => 200) { sampleUploader 2 with force_upload := true }
        { sampleInfoCls with jar := some "w-1.0.jar" }).files.map Prod.snd =
      "w-1.0.pom" :: (jarList { sampleInfoCls with jar := some "w-1.0.jar" }
        ++ (sampleUploader 2).classifiers.flatMap
             (classifierFiles { sampleInfoCls with jar := some "w-1.0.jar" })) :=
  c4_force_upload_oracle_independent (fun _ => 200) (fun _ => 404)
    { sampleUploader 2 with force_upload := true }
    { sampleInfoCls with jar := some "w-1.0.jar" } rfl

/-! Lemmas for the orchestrator and the descriptor asset. -/

theorem foldl_append_map (f : MavenInfo → UploadState) :
    ∀ (l : List MavenInfo) (acc : List UploadState),
      l.foldl (fun acc2 m => acc2 ++ [f m]) acc = acc ++ l.map f := by
  intro l
  induction l with
  | nil => intro acc; simp
  | cons m rest ih =>
    intro acc
    rw [List.foldl_cons, ih]
    simp

theorem foldl_submissions (statusOf : String → Nat) (u : BaseNexusUploader) :
    ∀ (avs : List (String × List MavenInfo)) (acc : List UploadState),
      avs.foldl (fun acc1 kv => kv.2.foldl
        (fun acc2 m => acc2 ++ [upload_single statusOf u m]) acc1) acc
      = acc ++ (avs.flatMap (fun kv => kv.2)).map (upload_single statusOf u) := by
  intro avs
  induction avs with
  | nil => intro acc; simp
  | cons kv rest ih =>
    intro acc
    rw [List.foldl_cons, ih, foldl_append_map]
    simp

theorem classifier_file_files_mono (statusOf : String → Nat) (u : BaseNexusUploader)
    (minfo : MavenInfo) (c : String) (st : UploadState) (f : String) :
    ∃ suf, (upload_classifier_file statusOf u minfo c st f).files = st.files ++ suf := by
  unfold upload_classifier_file
  split
  · exact ⟨[encode_file f st.extension_num], rfl⟩
  · exact ⟨[], by simp⟩

theorem foldl_files_mono (statusOf : String → Nat) (u : BaseNexusUploader)
    (minfo : MavenInfo) (c : String) :
    ∀ (fs : List String) (st : UploadState),
      ∃ suf, (fs.foldl (upload_classifier_file statusOf u minfo c) st).files
        = st.files ++ suf := by
  intro fs
  induction fs with
  | nil => exact fun st => ⟨[], by simp⟩
  | cons f rest ih =>
    intro st
    obtain ⟨s1, h1⟩ := ih (upload_classifier_file statusOf u minfo c st f)
    obtain ⟨s0, h0⟩ := classifier_file_files_mono statusOf u minfo c st f
    exact ⟨s0 ++ s1, by rw [List.foldl_cons, h1, h0, List.append_assoc]⟩

theorem upload_classifiers_files_mono (statusOf : String → Nat)
    (u : BaseNexusUploader) (minfo : MavenInfo) :
    ∀ (cs : List String) (st : UploadState),
      ∃ suf, (cs.foldl (fun st1 c => (classifierFiles minfo c).foldl
        (upload_classifier_file statusOf u minfo c) st1) st).files
        = st.files ++ suf := by
  intro cs
  induction cs with
  | nil => exact fun st => ⟨[], by simp⟩
  | cons c rest ih =>
    intro st
    obtain ⟨s0, h0⟩ := foldl_files_mono statusOf u minfo c (classifierFiles minfo c) st
    obtain ⟨s1, h1⟩ := ih ((classifierFiles minfo c).foldl
      (upload_classifier_file statusOf u minfo c) st)
    exact ⟨s0 ++ s1, by rw [List.foldl_cons, h1, h0, List.append_assoc]⟩

theorem uploadJarState_files_head (statusOf : String → Nat) (u : BaseNexusUploader)
    (minfo : MavenInfo) :
    ∃ tail, (uploadJarState statusOf u minfo).files
      = encode_file minfo.pom 1 :: tail := by
  unfold uploadJarState
  cases minfo.jar with
  | none => exact ⟨[], rfl⟩
  | some jarname =>
    by_cases hn : need_upload statusOf u minfo jarname = true
    · refine ⟨[encode_file jarname 2], ?_⟩
      show ((if need_upload statusOf u minfo jarname = true then
          { files := (uploadInitState minfo).files ++ [encode_file jarname 2]
            payload := (uploadInitState minfo).payload
              ++ [("maven2.asset2.extension", "jar")]
            extension_num := 3 }
        else uploadInitState minfo) : UploadState).files = _
      rw [if_pos hn]
      rfl
    · refine ⟨[], ?_⟩
      show ((if need_upload statusOf u minfo jarname = true then
          { files := (uploadInitState minfo).files ++ [encode_file jarname 2]
            payload := (uploadInitState minfo).payload
              ++ [("maven2.asset2.extension", "jar")]
            extension_num := 3 }
        else uploadInitState minfo) : UploadState).files = _
      rw [if_neg hn]
      rfl

theorem upload_single_head (statusOf : String → Nat) (u : BaseNexusUploader)
    (minfo : MavenInfo) :
    (upload_single statusOf u minfo).files.head?
      = some ("maven2.asset1", minfo.pom) := by
  unfold upload_single upload_classifiers
  obtain ⟨suf, hs⟩ := upload_classifiers_files_mono statusOf u minfo u.classifiers
    (uploadJarState statusOf u minfo)
  rw [hs]
  obtain ⟨tail, ht⟩ := uploadJarState_files_head statusOf u minfo
  rw [ht]
  rfl

/-- C7: the orchestrator performs exactly one submission per retained record
(one element of the submission list per record of the selected grouping, in
order, even when nothing besides the descriptor qualifies), and in every
submission the descriptor file is staged as asset 1, independently of the
remote existence oracle (the descriptor is staged before any check). -/
theorem c7_descriptor_first_one_submission_per_record (statusOf : String → Nat)
    (u : BaseNexusUploader) (infos : List MavenInfo) (t : Nat)
    (avs : List (String × List MavenInfo))
    (h : filtered_maven_versions u infos = some (t, avs)) :
    upload_run statusOf u infos =
      some ((avs.flatMap (fun kv => kv.2)).map (upload_single statusOf u))
    ∧ ∀ (statusOf2 : String → Nat) (minfo : MavenInfo),
        (upload_single statusOf2 u minfo).files.head?
          = some ("maven2.asset1", minfo.pom) := by
  constructor
  · unfold upload_run
    rw [h]
    show some _ = _
    rw [foldl_submissions]
    simp
  · exact fun s2 m => upload_single_head s2 u m

/-- Witness for c7_descriptor_first_one_submission_per_record: one retained
record yields exactly one submission, and with an all-present oracle (200)
the submission still happens and stages the descriptor as asset 1. -/
theorem c7_descriptor_first_one_submission_per_record_witness :
    upload_run (fun _ => 200) (sampleUploader 1) [sampleRec "1" 1] =
      some (([("g:a", [sampleRec "1" 1])].flatMap (fun kv => kv.2)).map
        (upload_single (fun _ => 200) (sampleUploader 1)))
    ∧ (upload_single (fun _ => 200) (sampleUploader 1) (sampleRec "1" 1)).files.head?
        = some ("maven2.asset1", (sampleRec "1" 1).pom) := by
  have h := c7_descriptor_first_one_submission_per_record (fun _ => 200)
    (sampleUploader 1) [sampleRec "1" 1] 1 [("g:a", [sampleRec "1" 1])] (by decide)
  exact ⟨h.1, h.2 (fun _ => 200) (sampleRec "1" 1)⟩

/-! Lemmas for the classifier tagging invariant. -/

theorem classifierTagged_file (statusOf : String → Nat) (u : BaseNexusUploader)
    (minfo : MavenInfo) (c : String) (hc : c ∈ u.classifiers) (st : UploadState)
    (f : String) (hf : f ∈ classifierFiles minfo c)
    (h : classifierTagged u minfo st) :
    classifierTagged u minfo (upload_classifier_file statusOf u minfo c st f) := by
  unfold upload_classifier_file
  split
  · intro e he
    rcases List.mem_append.mp he with h1 | h1
    · rcases h e h1 with h2 | h2 | ⟨c', hc', hf', hext, hcls⟩
      · exact Or.inl h2
      · exact Or.inr (Or.inl h2)
      · exact Or.inr (Or.inr ⟨c', hc', hf',
          List.mem_append_left _ hext, List.mem_append_left _ hcls⟩)
    · have he' : e = encode_file f st.extension_num := by simpa using h1
      subst he'
      refine Or.inr (Or.inr ⟨c, hc, hf, ?_, ?_⟩)
      · apply List.mem_append_right
        exact List.mem_cons_self _ _
      · apply List.mem_append_right
        exact List.mem_cons_of_mem _ (List.mem_cons_self _ _)
  · exact h

theorem classifierTagged_foldl_files (statusOf : String → Nat)
    (u : BaseNexusUploader) (minfo : MavenInfo) (c : String)
    (hc : c ∈ u.classifiers) :
    ∀ (fs : List String) (st : UploadState),
      (∀ f ∈ fs, f ∈ classifierFiles minfo c) →
      classifierTagged u minfo st →
      classifierTagged u minfo
        (fs.foldl (upload_classifier_file statusOf u minfo c) st) := by
  intro fs
  induction fs with
  | nil => exact fun st _ h => h
  | cons f rest ih =>
    intro st hsub h
    exact ih _ (fun g hg => hsub g (List.mem_cons_of_mem _ hg))
      (classifierTagged_file statusOf u minfo c hc st f
        (hsub f (List.mem_cons_self _ _)) h)

theorem classifierTagged_foldl_classifiers (statusOf : String → Nat)
    (u : BaseNexusUploader) (minfo : MavenInfo) :
    ∀ (cs : List String) (st : UploadState),
      (∀ c ∈ cs, c ∈ u.classifiers) →
      classifierTagged u minfo st →
      classifierTagged u minfo
        (cs.foldl (fun st1 c => (classifierFiles minfo c).foldl
          (upload_classifier_file statusOf u minfo c) st1) st) := by
  intro cs
  induction cs with
  | nil => exact fun st _ h => h
  | cons c rest ih =>
    intro st hsub h
    exact ih _ (fun c2 hc2 => hsub c2 (List.mem_cons_of_mem _ hc2))
      (classifierTagged_foldl_files statusOf u minfo c
        (hsub c (List.mem_cons_self _ _)) (classifierFiles minfo c) st
        (fun g hg => hg) h)

theorem uploadJarState_files (statusOf : String → Nat) (u : BaseNexusUploader)
    (minfo : MavenInfo) :
    (uploadJarState statusOf u minfo).files = [encode_file minfo.pom 1]
    ∨ ∃ jarname, minfo.jar = some jarname ∧
        (uploadJarState statusOf u minfo).files
          = [encode_file minfo.pom 1, encode_file jarname 2] := by
  unfold uploadJarState
  cases minfo.jar with
  | none => exact Or.inl rfl
  | some jarname =>
    by_cases hn : need_upload statusOf u minfo jarname = true
    · refine Or.inr ⟨jarname, rfl, ?_⟩
      show ((if need_upload statusOf u minfo jarname = true then
          { files := (uploadInitState minfo).files ++ [encode_file jarname 2]
            payload := (uploadInitState minfo).payload
              ++ [("maven2.asset2.extension", "jar")]
            extension_num := 3 }
        else uploadInitState minfo) : UploadState).files
        = [encode_file minfo.pom 1, encode_file jarname 2]
      rw [if_pos hn]
      rfl
    · left
      show ((if need_upload statusOf u minfo jarname = true then
          { files := (uploadInitState minfo).files ++ [encode_file jarname 2]
            payload := (uploadInitState minfo).payload
              ++ [("maven2.asset2.extension", "jar")]
            extension_num := 3 }
        else uploadInitState minfo) : UploadState).files
        = [encode_file minfo.pom 1]
      rw [if_neg hn]
      rfl

theorem classifierTagged_jarState (statusOf : String → Nat)
    (u : BaseNexusUploader) (minfo : MavenInfo) :
    classifierTagged u minfo (uploadJarState statusOf u minfo) := by
  rcases uploadJarState_files statusOf u minfo with hf1 | ⟨jarname, hj, hf1⟩ <;>
    intro e he <;> rw [hf1] at he
  · have he2 : e = encode_file minfo.pom 1 := by simpa using he
    subst he2
    exact Or.inl rfl
  · have he2 : e = encode_file minfo.pom 1 ∨ e = encode_file jarname 2 := by
      simpa using he
    rcases he2 with h1 | h1
    · subst h1
      exact Or.inl rfl
    · subst h1
      exact Or.inr (Or.inl (by rw [hj]; rfl))

/-- C8: every file staged by a submission is the descriptor, the primary jar,
or a file of a configured classifier whose extension form field, keyed by
that asset's own field name, is the text after that specific file's last dot
(never a hardcoded default); in particular a file ending in .exe is tagged
with extension exe, not jar. -/
theorem c8_classifier_extension_from_own_suffix :
    (∀ (statusOf : String → Nat) (u : BaseNexusUploader) (minfo : MavenInfo),
      classifierTagged u minfo (upload_single statusOf u minfo))
    ∧ lastSuffix "widget-1.0-linux-x86_64.exe" = "exe"
    ∧ lastSuffix "widget-1.0-sources.jar" = "jar" := by
  refine ⟨?_, by decide, by decide⟩
  intro statusOf u minfo
  unfold upload_single upload_classifiers
  exact classifierTagged_foldl_classifiers statusOf u minfo u.classifiers _
    (fun c hc => hc) (classifierTagged_jarState statusOf u minfo)

/-- Witness for c8_classifier_extension_from_own_suffix: the classifier file
w-1.0-sources.exe staged as asset 2 carries extension exe (its own suffix)
and classifier sources in the posted form fields. -/
theorem c8_classifier_extension_from_own_suffix_witness :
    ("w-1.0-sources.exe" = sampleInfoCls.pom) ∨
    (sampleInfoCls.jar = some "w-1.0-sources.exe") ∨
    ∃ c, c ∈ (sampleUploader 2).classifiers ∧
      "w-1.0-sources.exe" ∈ classifierFiles sampleInfoCls c ∧
      ("maven2.asset2" ++ ".extension", lastSuffix "w-1.0-sources.exe")
        ∈ (upload_single (fun _ => 404) (sampleUploader 2) sampleInfoCls).payload ∧
      ("maven2.asset2" ++ ".classifier", c)
        ∈ (upload_single (fun _ => 404) (sampleUploader 2) sampleInfoCls).payload :=
  c8_classifier_extension_from_own_suffix.1 (fun _ => 404) (sampleUploader 2)
    sampleInfoCls ("maven2.asset2", "w-1.0-sources.exe") (by decide)

/-! Lemmas for the bounded top-k selection (claim C1). -/

theorem lookup_update_self (avs : List (String × List MavenInfo)) (key : String)
    (g : List MavenInfo) : lookupGroup (updateGroup avs key g) key = g := by
  induction avs with
  | nil => simp [updateGroup, lookupGroup]
  | cons kv t ih =>
    obtain ⟨k, h⟩ := kv
    by_cases hk : k = key
    · simp [updateGroup, lookupGroup, hk]
    · simp [updateGroup, lookupGroup, hk, ih]

theorem lookup_update_ne (avs : List (String × List MavenInfo)) (key k2 : String)
    (g : List MavenInfo) (hne : k2 ≠ key) :
    lookupGroup (updateGroup avs k2 g) key = lookupGroup avs key := by
  induction avs with
  | nil => simp [updateGroup, lookupGroup, hne]
  | cons kv t ih =>
    obtain ⟨k, h⟩ := kv
    by_cases hk : k = k2
    · subst hk
      simp [updateGroup, lookupGroup, hne]
    · simp [updateGroup, lookupGroup, hk, ih]

theorem filteredFold_group (u : BaseNexusUploader) (key : String) :
    ∀ (infos : List MavenInfo) (st : Nat × List (String × List MavenInfo))
      (t : Nat) (avs : List (String × List MavenInfo)),
      filteredFold u st infos = some (t, avs) →
      groupFoldAux u.limit (lookupGroup st.2 key)
        (infos.filter (fun i => passesFilters u i && decide (artifactKey i = key)))
        = some (lookupGroup avs key) := by
  intro infos
  induction infos with
  | nil =>
    intro st t avs h
    unfold filteredFold at h
    cases h
    simp [groupFoldAux]
  | cons info rest ih =>
    intro st t avs h
    unfold filteredFold at h
    cases hstep : filteredStep u st info with
    | none =>
      rw [hstep] at h
      simp at h
    | some st1 =>
      rw [hstep] at h
      unfold filteredStep at hstep
      by_cases hp : passesFilters u info
      · rw [if_pos hp] at hstep
        cases hsg : stepGroup u.limit (lookupGroup st.2 (artifactKey info)) info with
        | none =>
          rw [hsg] at hstep
          simp at hstep
        | some pr =>
          obtain ⟨h2, inc⟩ := pr
          rw [hsg] at hstep
          have hst1 : st1
              = (st.1 + (if inc then 1 else 0), updateGroup st.2 (artifactKey info) h2) := by
            cases hstep
            rfl
          subst hst1
          by_cases hk : artifactKey info = key
          · rw [List.filter_cons_of_pos (by simp [hp, hk])]
            have hlook : lookupGroup (updateGroup st.2 (artifactKey info) h2) key = h2 := by
              rw [hk]
              exact lookup_update_self st.2 key h2
            have ih2 := ih _ t avs h
            rw [hlook] at ih2
            rw [hk] at hsg
            simp only [groupFoldAux]
            rw [hsg]
            exact ih2
          · rw [List.filter_cons_of_neg (by simp [hk])]
            have hlook : lookupGroup (updateGroup st.2 (artifactKey info) h2) key
                = lookupGroup st.2 key :=
              lookup_update_ne st.2 key (artifactKey info) h2 hk
            have ih2 := ih _ t avs h
            rw [hlook] at ih2
            exact ih2
      · rw [if_neg hp] at hstep
        have hst1 : st1 = st := by
          cases hstep
          rfl
        subst hst1
        rw [List.filter_cons_of_neg (by simp [hp])]
        exact ih _ t avs h

theorem heappush_mem {h : List MavenInfo} {x b : MavenInfo} :
    b ∈ heappush h x ↔ b = x ∨ b ∈ h := by
  rw [(heappush_perm h x).mem_iff]
  simp

theorem heappush_sorted {h : List MavenInfo}
    (hs : h.Pairwise (fun a b => a.mtime ≤ b.mtime)) (x : MavenInfo) :
    (heappush h x).Pairwise (fun a b => a.mtime ≤ b.mtime) := by
  induction h with
  | nil => simp [heappush]
  | cons top rest ih =>
    rw [List.pairwise_cons] at hs
    obtain ⟨htop, hrest⟩ := hs
    unfold heappush
    by_cases hlt : x.mtime < top.mtime
    · rw [if_pos hlt]
      refine List.Pairwise.cons ?_ (List.Pairwise.cons htop hrest)
      intro b hb
      rcases List.mem_cons.mp hb with h1 | h1
      · subst h1
        omega
      · have := htop b h1
        omega
    · rw [if_neg hlt]
      refine List.Pairwise.cons ?_ (ih hrest)
      intro b hb
      rcases heappush_mem.mp hb with h1 | h1
      · subst h1
        omega
      · exact htop b h1

theorem countP_lt_countP (p q : MavenInfo → Bool) (l : List MavenInfo)
    (himp : ∀ x ∈ l, p x = true → q x = true) (a : MavenInfo) (ha : a ∈ l)
    (hqa : q a = true) (hpa : p a = false) :
    l.countP p < l.countP q := by
  induction l with
  | nil => cases ha
  | cons x t ih =>
    rw [List.countP_cons, List.countP_cons]
    rcases List.mem_cons.mp ha with h1 | h1
    · subst h1
      have hmono : t.countP p ≤ t.countP q :=
        List.countP_mono_left (fun y hy => himp y (List.mem_cons_of_mem _ hy))
      rw [hpa, hqa]
      simp
      omega
    · have hlt := ih (fun y hy hp => himp y (List.mem_cons_of_mem _ hy) hp) h1
      by_cases hpx : p x = true
      · rw [hpx, himp x (List.mem_cons_self _ _) hpx]
        omega
      · have hpx2 : p x = false := by
          simpa using hpx
        rw [hpx2]
        simp only [Bool.false_eq_true, if_false]
        by_cases hqx : q x = true
        · rw [hqx]
          simp
          omega
        · have hqx2 : q x = false := by
            simpa using hqx
          rw [hqx2]
          simp
          omega

theorem cntAbove_lt_length (l : List MavenInfo) (r : MavenInfo) (hr : r ∈ l) :
    cntAbove l r < l.length := by
  have hle := List.countP_le_length (fun s => decide (r.mtime < s.mtime)) (l := l)
  rcases Nat.eq_or_lt_of_le hle with heq | hlt
  · exfalso
    have hall := List.countP_eq_length.mp heq r hr
    simp at hall
  · exact hlt

theorem cntAbove_strict (l : List MavenInfo) (a b : MavenInfo)
    (ha : a ∈ l) (hab : b.mtime < a.mtime) :
    cntAbove l a < cntAbove l b := by
  unfold cntAbove
  refine countP_lt_countP _ _ l ?_ a ha ?_ ?_
  · intro x hx hp
    simp only [decide_eq_true_eq] at hp ⊢
    omega
  · simp only [decide_eq_true_eq]
    exact hab
  · simp

theorem cntAbove_mono (l : List MavenInfo) (a b : MavenInfo)
    (hab : b.mtime < a.mtime) : cntAbove l a ≤ cntAbove l b := by
  unfold cntAbove
  refine List.countP_mono_left ?_
  intro x hx hp
  simp only [decide_eq_true_eq] at hp ⊢
  omega

theorem cntAbove_append (l1 l2 : List MavenInfo) (r : MavenInfo) :
    cntAbove (l1 ++ l2) r = cntAbove l1 r + cntAbove l2 r := by
  unfold cntAbove
  exact List.countP_append _ l1 l2

theorem cntAbove_singleton (x r : MavenInfo) :
    cntAbove [x] r = if r.mtime < x.mtime then 1 else 0 := by
  unfold cntAbove
  rw [List.countP_cons]
  simp

theorem mem_keep {k : Nat} {l : List MavenInfo} {r : MavenInfo} :
    r ∈ keep k l ↔ r ∈ l ∧ cntAbove l r < k := by
  unfold keep
  rw [List.mem_filter]
  simp

theorem distinct_nodup {l : List MavenInfo} (hd : distinctTimes l) : l.Nodup :=
  hd.imp (fun h he => h (by rw [he]))

theorem distinct_ne_times {l : List MavenInfo} (hd : distinctTimes l)
    {a b : MavenInfo} (ha : a ∈ l) (hb : b ∈ l) (hab : a ≠ b) :
    a.mtime ≠ b.mtime :=
  List.Pairwise.forall (fun _ _ h => Ne.symm h) hd ha hb hab

theorem distinct_prefix {l1 l2 : List MavenInfo} (hd : distinctTimes (l1 ++ l2)) :
    distinctTimes l1 :=
  List.Pairwise.sublist (List.sublist_append_left l1 l2) hd

theorem keep_step (k : Nat) (p : List MavenInfo) (x : MavenInfo)
    (h : List MavenInfo)
    (hd : distinctTimes (p ++ [x]))
    (hs : h.Pairwise (fun a b => a.mtime ≤ b.mtime))
    (hperm : h.Perm (keep k p))
    (hlen : h.length = min p.length k) :
    ∀ h2 inc, stepGroup k h x = some (h2, inc) →
      h2.Pairwise (fun a b => a.mtime ≤ b.mtime)
      ∧ h2.Perm (keep k (p ++ [x]))
      ∧ h2.length = min (p ++ [x]).length k := by
  intro h2 inc hstep
  have hdp : distinctTimes p := distinct_prefix hd
  have hxp : ∀ r ∈ p, r.mtime ≠ x.mtime := by
    have hsplit := List.pairwise_append.mp hd
    intro r hr
    exact hsplit.2.2 r hr x (by simp)
  have hxnotp : x ∉ p := fun hx => (hxp x hx) rfl
  have hcnt2 : ∀ r : MavenInfo,
      cntAbove (p ++ [x]) r = cntAbove p r + (if r.mtime < x.mtime then 1 else 0) := by
    intro r
    rw [cntAbove_append, cntAbove_singleton]
  have hnodup_p : p.Nodup := distinct_nodup hdp
  have hkeep2_nodup : (keep k (p ++ [x])).Nodup :=
    List.Nodup.filter _ (distinct_nodup hd)
  have hmem_h : ∀ r : MavenInfo, r ∈ h ↔ (r ∈ p ∧ cntAbove p r < k) := by
    intro r
    rw [hperm.mem_iff, mem_keep]
  have hnodup_h : h.Nodup := hperm.nodup_iff.mpr (List.Nodup.filter _ hnodup_p)
  by_cases hfull : k ≤ h.length
  · cases h with
    | nil =>
      exfalso
      have hnone : stepGroup k [] x = none := by
        unfold stepGroup
        rw [if_pos hfull]
      rw [hnone] at hstep
      exact Option.noConfusion hstep
    | cons top restH =>
      have hred : stepGroup k (top :: restH) x
          = if x.mtime < top.mtime then some (top :: restH, false)
            else some (heappush restH x, false) := by
        unfold stepGroup
        rw [if_pos hfull]
      rw [hred] at hstep
      have hlen2 : restH.length + 1 = k := by
        simp only [List.length_cons] at hlen hfull
        omega
      have hplen_ge : k ≤ p.length := by
        simp only [List.length_cons] at hlen
        omega
      obtain ⟨htopp, htopcnt⟩ :
          top ∈ p ∧ cntAbove p top < k := (hmem_h top).mp (List.mem_cons_self top restH)
      have htople : ∀ b ∈ restH, top.mtime ≤ b.mtime := (List.pairwise_cons.mp hs).1
      have hsrest : restH.Pairwise (fun a b => a.mtime ≤ b.mtime) :=
        (List.pairwise_cons.mp hs).2
      have htopnot : top ∉ restH := (List.nodup_cons.mp hnodup_h).1
      have hnodup_rest : restH.Nodup := (List.nodup_cons.mp hnodup_h).2
      have hstrict : ∀ b ∈ restH, top.mtime < b.mtime := by
        intro b hb
        have hbp : b ∈ p := ((hmem_h b).mp (List.mem_cons_of_mem _ hb)).1
        have hne : top ≠ b := fun he => htopnot (he ▸ hb)
        have hnet := distinct_ne_times hdp htopp hbp hne
        have hle := htople b hb
        omega
      have hcnt_top_ge : restH.length ≤ cntAbove p top := by
        have hsub : restH ⊆ p.filter (fun s => decide (top.mtime < s.mtime)) := by
          intro b hb
          rw [List.mem_filter]
          refine ⟨((hmem_h b).mp (List.mem_cons_of_mem _ hb)).1, ?_⟩
          simp only [decide_eq_true_eq]
          exact hstrict b hb
        have hsp := (List.Nodup.subperm hnodup_rest hsub).length_le
        unfold cntAbove
        rw [List.countP_eq_length_filter]
        exact hsp
      have hcnt_top : cntAbove p top = k - 1 := by
        omega
      have hcnt_rest : ∀ b ∈ restH, cntAbove p b < k - 1 := by
        intro b hb
        have hbp : b ∈ p := ((hmem_h b).mp (List.mem_cons_of_mem _ hb)).1
        have hlt2 := cntAbove_strict p b top hbp (hstrict b hb)
        omega
      by_cases hlt : x.mtime < top.mtime
      · rw [if_pos hlt] at hstep
        have hh2 : h2 = top :: restH := by
          cases hstep
          rfl
        subst hh2
        have hcnt_x_ge : k ≤ cntAbove p x := by
          have hsub : (top :: restH) ⊆ p.filter (fun s => decide (x.mtime < s.mtime)) := by
            intro b hb
            rw [List.mem_filter]
            refine ⟨((hmem_h b).mp hb).1, ?_⟩
            simp only [decide_eq_true_eq]
            rcases List.mem_cons.mp hb with h1 | h1
            · subst h1
              exact hlt
            · have := hstrict b h1
              omega
          have hsp := (List.Nodup.subperm hnodup_h hsub).length_le
          simp only [List.length_cons] at hsp
          unfold cntAbove
          rw [List.countP_eq_length_filter]
          omega
        refine ⟨hs, ?_, ?_⟩
        · rw [List.perm_ext_iff_of_nodup hnodup_h hkeep2_nodup]
          intro r
          rw [mem_keep]
          constructor
          · intro hr
            obtain ⟨hrp, hrcnt⟩ := (hmem_h r).mp hr
            refine ⟨List.mem_append_left _ hrp, ?_⟩
            rw [hcnt2 r]
            have hxr : ¬ r.mtime < x.mtime := by
              rcases List.mem_cons.mp hr with h1 | h1
              · subst h1
                omega
              · have := hstrict r h1
                omega
            rw [if_neg hxr]
            omega
          · rintro ⟨hrmem, hrcnt⟩
            rcases List.mem_append.mp hrmem with h1 | h1
            · apply (hmem_h r).mpr
              refine ⟨h1, ?_⟩
              by_cases hrx : r.mtime < x.mtime
              · exfalso
                have hrtop : r.mtime < top.mtime := by omega
                have hc := cntAbove_strict p top r htopp hrtop
                rw [hcnt2 r, if_pos hrx] at hrcnt
                omega
              · rw [hcnt2 r, if_neg hrx] at hrcnt
                omega
            · exfalso
              have hrx : r = x := by simpa using h1
              subst hrx
              rw [hcnt2 r, if_neg (by omega)] at hrcnt
              omega
        · simp only [List.length_cons, List.length_append, List.length_nil]
          omega
      · rw [if_neg hlt] at hstep
        have hh2 : h2 = heappush restH x := by
          cases hstep
          rfl
        subst hh2
        have htopx : top.mtime < x.mtime := by
          have hne := hxp top htopp
          omega
        have hcnt_x_le : cntAbove p x ≤ cntAbove p top := cntAbove_mono p x top htopx
        have hxnotRest : x ∉ restH := by
          intro hx
          exact hxnotp ((hmem_h x).mp (List.mem_cons_of_mem _ hx)).1
        have hnodup2 : (x :: restH).Nodup := List.nodup_cons.mpr ⟨hxnotRest, hnodup_rest⟩
        refine ⟨heappush_sorted hsrest x, ?_, ?_⟩
        · refine (heappush_perm restH x).trans ?_
          rw [List.perm_ext_iff_of_nodup hnodup2 hkeep2_nodup]
          intro r
          rw [mem_keep]
          constructor
          · intro hr
            rcases List.mem_cons.mp hr with h1 | h1
            · subst h1
              refine ⟨List.mem_append_right _ (by simp), ?_⟩
              rw [hcnt2 r, if_neg (by omega)]
              omega
            · refine ⟨List.mem_append_left _
                ((hmem_h r).mp (List.mem_cons_of_mem _ h1)).1, ?_⟩
              rw [hcnt2 r]
              have := hcnt_rest r h1
              by_cases hrx : r.mtime < x.mtime
              · rw [if_pos hrx]
                omega
              · rw [if_neg hrx]
                omega
          · rintro ⟨hrmem, hrcnt⟩
            rcases List.mem_append.mp hrmem with h1 | h1
            · right
              by_cases hrtop : r = top
              · exfalso
                subst hrtop
                rw [hcnt2 r, if_pos htopx] at hrcnt
                omega
              · have hrh : r ∈ top :: restH := by
                  apply (hmem_h r).mpr
                  refine ⟨h1, ?_⟩
                  by_cases hrx : r.mtime < x.mtime
                  · rw [hcnt2 r, if_pos hrx] at hrcnt
                    omega
                  · rw [hcnt2 r, if_neg hrx] at hrcnt
                    omega
                rcases List.mem_cons.mp hrh with h4 | h4
                · exact absurd h4 hrtop
                · exact h4
            · have hrx : r = x := by simpa using h1
              subst hrx
              exact List.mem_cons_self _ _
        · rw [heappush_length]
          simp only [List.length_append, List.length_cons, List.length_nil]
          omega
  · have hred : stepGroup k h x = some (heappush h x, true) := by
      unfold stepGroup
      rw [if_neg hfull]
    rw [hred] at hstep
    have hh2 : h2 = heappush h x := by
      cases hstep
      rfl
    subst hh2
    have hplt : p.length < k := by
      omega
    have hkeep_p : keep k p = p := by
      unfold keep
      apply List.filter_eq_self.mpr
      intro r hr
      simp only [decide_eq_true_eq]
      have := cntAbove_lt_length p r hr
      omega
    have hkeep2 : keep k (p ++ [x]) = p ++ [x] := by
      unfold keep
      apply List.filter_eq_self.mpr
      intro r hr
      simp only [decide_eq_true_eq]
      have := cntAbove_lt_length (p ++ [x]) r hr
      simp only [List.length_append, List.length_cons, List.length_nil] at this
      omega
    refine ⟨heappush_sorted hs x, ?_, ?_⟩
    · rw [hkeep2]
      refine (heappush_perm h x).trans ?_
      have hhp : h.Perm p := by
        rw [← hkeep_p]
        exact hperm
      exact (hhp.cons x).trans (List.perm_append_singleton x p).symm
    · rw [heappush_length]
      simp only [List.length_append, List.length_cons, List.length_nil]
      omega

theorem groupFoldAux_keep (k : Nat) :
    ∀ (rest p h : List MavenInfo),
      distinctTimes (p ++ rest) →
      h.Pairwise (fun a b => a.mtime ≤ b.mtime) →
      h.Perm (keep k p) →
      h.length = min p.length k →
      ∀ h2, groupFoldAux k h rest = some h2 →
        h2.Pairwise (fun a b => a.mtime ≤ b.mtime) ∧ h2.Perm (keep k (p ++ rest)) := by
  intro rest
  induction rest with
  | nil =>
    intro p h hd hs hperm hlen h2 hfold
    have hh : h2 = h := by
      simpa [groupFoldAux] using hfold.symm
    subst hh
    rw [List.append_nil]
    exact ⟨hs, hperm⟩
  | cons x rest ih =>
    intro p h hd hs hperm hlen h2 hfold
    simp only [groupFoldAux] at hfold
    cases hsg : stepGroup k h x with
    | none =>
      rw [hsg] at hfold
      exact Option.noConfusion hfold
    | some pr =>
      obtain ⟨h1, inc⟩ := pr
      rw [hsg] at hfold
      have hd2 : distinctTimes ((p ++ [x]) ++ rest) := by
        rw [List.append_assoc]
        exact hd
      have hdx : distinctTimes (p ++ [x]) := distinct_prefix hd2
      obtain ⟨hs1, hperm1, hlen1⟩ := keep_step k p x h hdx hs hperm hlen h1 inc hsg
      have hres := ih (p ++ [x]) h1 hd2 hs1 hperm1 hlen1 h2 hfold
      rwa [List.append_assoc] at hres

/-- C1: bounded top-k selection by recency.  For every configuration, input
sequence and artifact key, when the modification times of that key's filtered
records are pairwise distinct, the group retained by _filtered_maven_versions
for that key consists exactly of the records of the key with fewer than limit
strictly more recent records of the same key, that is, the limit most recent
records; and the retained group is the same, up to order, for every
permutation of the input sequence. -/
theorem c1_limit_retains_topk (u : BaseNexusUploader) (infos : List MavenInfo)
    (t : Nat) (avs : List (String × List MavenInfo)) (key : String)
    (hrun : filtered_maven_versions u infos = some (t, avs))
    (hd : distinctTimes (keyRecords u key infos)) :
    (lookupGroup avs key).Perm (keep u.limit (keyRecords u key infos))
    ∧ ∀ (infos2 : List MavenInfo) (t2 : Nat) (avs2 : List (String × List MavenInfo)),
        infos2.Perm infos →
        filtered_maven_versions u infos2 = some (t2, avs2) →
        (lookupGroup avs2 key).Perm (lookupGroup avs key) := by
  have hmain : ∀ (infos' : List MavenInfo) (t' : Nat)
      (avs' : List (String × List MavenInfo)),
      filtered_maven_versions u infos' = some (t', avs') →
      distinctTimes (keyRecords u key infos') →
      (lookupGroup avs' key).Perm (keep u.limit (keyRecords u key infos')) := by
    intro infos' t' avs' hrun' hd'
    have hred : groupFoldAux u.limit [] (keyRecords u key infos')
        = some (lookupGroup avs' key) :=
      filteredFold_group u key infos' (0, []) t' avs' hrun'
    have hres := groupFoldAux_keep u.limit (keyRecords u key infos') [] []
      hd' List.Pairwise.nil (List.Perm.refl _) (by simp)
      (lookupGroup avs' key) hred
    exact hres.2
  constructor
  · exact hmain infos t avs hrun hd
  · intro infos2 t2 avs2 hperm2 hrun2
    have hkr : (keyRecords u key infos2).Perm (keyRecords u key infos) :=
      hperm2.filter _
    have hd2 : distinctTimes (keyRecords u key infos2) := by
      unfold distinctTimes at hd ⊢
      exact (List.Perm.pairwise_iff (fun {a b} h => Ne.symm h) hkr).mpr hd
    have h1 := hmain infos2 t2 avs2 hrun2 hd2
    have h2 := hmain infos t avs hrun hd
    have hkeep : (keep u.limit (keyRecords u key infos2)).Perm
        (keep u.limit (keyRecords u key infos)) := by
      unfold keep
      have hcong : (keyRecords u key infos2).filter
            (fun r => decide (cntAbove (keyRecords u key infos2) r < u.limit))
          = (keyRecords u key infos2).filter
            (fun r => decide (cntAbove (keyRecords u key infos) r < u.limit)) := by
        apply List.filter_congr
        intro r hr
        have hc : cntAbove (keyRecords u key infos2) r
            = cntAbove (keyRecords u key infos) r := by
          unfold cntAbove
          exact hkr.countP_eq _
        rw [hc]
      rw [hcong]
      exact hkr.filter _
    exact (h1.trans hkeep).trans h2.symm

/-- Witness for c1_limit_retains_topk: one key with modification times
1, 5, 3, 9, 2 and limit 2 retains exactly the records with times 5 and 9. -/
theorem c1_limit_retains_topk_witness :
    filtered_maven_versions (sampleUploader 2)
        [sampleRec "1" 1, sampleRec "5" 5, sampleRec "3" 3, sampleRec "9" 9,
          sampleRec "2" 2]
      = some (2, [("g:a", [sampleRec "5" 5, sampleRec "9" 9])])
    ∧ distinctTimes (keyRecords (sampleUploader 2) "g:a"
        [sampleRec "1" 1, sampleRec "5" 5, sampleRec "3" 3, sampleRec "9" 9,
          sampleRec "2" 2])
    ∧ (lookupGroup [("g:a", [sampleRec "5" 5, sampleRec "9" 9])] "g:a").Perm
        (keep 2 (keyRecords (sampleUploader 2) "g:a"
          [sampleRec "1" 1, sampleRec "5" 5, sampleRec "3" 3, sampleRec "9" 9,
            sampleRec "2" 2])) := by
  refine ⟨rfl, by decide, ?_⟩
  exact (c1_limit_retains_topk (sampleUploader 2)
    [sampleRec "1" 1, sampleRec "5" 5, sampleRec "3" 3, sampleRec "9" 9,
      sampleRec "2" 2]
    2 [("g:a", [sampleRec "5" 5, sampleRec "9" 9])] "g:a" rfl (by decide)).1
